import Mathlib

/-!
Verification of the `adr` command-line tool (config store, template
renderer, `init`/`new` command flows), modelled over an explicit
filesystem state.  Characters strings are modelled as `List Char`;
file contents and paths are such lists; the filesystem is a key-value
store from paths to contents plus a set of existing directories.
-/

set_option maxHeartbeats 1000000
set_option maxRecDepth 100000

/-- Character strings, modelled as lists of unicode characters. -/
abbrev Str := List Char

/-! ## Decimal rendering and parsing (models Go strconv / encoding/json numbers) -/

/-- Decimal digit character for a value below ten. -/
def digitChar (d : Nat) : Char := Char.ofNat (48 + d)

/-- Decimal digits of a natural number, most significant first.  The first
argument is recursion fuel (kept structural so the kernel can evaluate it);
`natDigits` supplies enough fuel. -/
def natDigitsAux : Nat → Nat → Str
  | 0, n => [digitChar n]
  | f+1, n => if n < 10 then [digitChar n] else natDigitsAux f (n / 10) ++ [digitChar (n % 10)]

/-- Decimal digits of a natural number (models Go `strconv.Itoa` on naturals). -/
def natDigits (n : Nat) : Str := natDigitsAux n n

/-- Models Go's decimal rendering of an `int` (strconv.Itoa / JSON number output). -/
def intRepr (i : Int) : Str := if i < 0 then '-' :: natDigits (-i).toNat else natDigits i.toNat

/-- Numeric value of a decimal digit character, `none` for non-digits. -/
def digVal (c : Char) : Option Nat :=
  if 48 ≤ c.toNat ∧ c.toNat ≤ 57 then some (c.toNat - 48) else none

/-- Consume a maximal run of decimal digits, accumulating their value. -/
def consumeDigits : Str → Nat → Nat × Str
  | [], acc => (acc, [])
  | c :: cs, acc =>
    match digVal c with
    | some d => consumeDigits cs (10 * acc + d)
    | none => (acc, c :: cs)

/-- Parse a nonempty run of decimal digits (models JSON number scanning
for non-negative integers). -/
def parseNatChars (s : Str) : Option (Nat × Str) :=
  match s with
  | [] => none
  | c :: _ => if (digVal c).isSome then some (consumeDigits s 0) else none

/-- Parse an optionally-signed decimal integer (models JSON number scanning
followed by Go's decode into an `int` field). -/
def parseIntChars : Str → Option (Int × Str)
  | [] => none
  | c :: rest =>
    if c = '-' then (parseNatChars rest).map (fun p => (-(p.1 : Int), p.2))
    else (parseNatChars (c :: rest)).map (fun p => ((p.1 : Int), p.2))

theorem digVal_digitChar {d : Nat} (h : d < 10) : digVal (digitChar d) = some d := by
  interval_cases d <;> decide

theorem digVal_digitChar_isSome {d : Nat} (h : d < 10) : (digVal (digitChar d)).isSome := by
  rw [digVal_digitChar h]; rfl

/-- Every character produced by `natDigitsAux` is a decimal digit character. -/
theorem natDigitsAux_digits {f n : Nat} (hf : n ≤ f ∨ n < 10) :
    ∀ c ∈ natDigitsAux f n, ∃ d, d < 10 ∧ c = digitChar d := by
  induction f generalizing n with
  | zero =>
    intro c hc
    have hn : n < 10 := by omega
    simp only [natDigitsAux, List.mem_singleton] at hc
    exact ⟨n, hn, hc⟩
  | succ f ih =>
    intro c hc
    by_cases h10 : n < 10
    · simp only [natDigitsAux, if_pos h10, List.mem_singleton] at hc
      exact ⟨n, h10, hc⟩
    · simp only [natDigitsAux, if_neg h10, List.mem_append, List.mem_singleton] at hc
      rcases hc with hc | hc
      · exact ih (by omega) c hc
      · exact ⟨n % 10, Nat.mod_lt _ (by omega), hc⟩

theorem natDigits_digits (n : Nat) : ∀ c ∈ natDigits n, ∃ d, d < 10 ∧ c = digitChar d :=
  natDigitsAux_digits (Or.inl le_rfl)

theorem natDigitsAux_ne_nil {f n : Nat} : natDigitsAux f n ≠ [] := by
  cases f with
  | zero => simp [natDigitsAux]
  | succ f =>
    simp only [natDigitsAux]
    split
    · simp
    · simp

theorem natDigits_ne_nil {n : Nat} : natDigits n ≠ [] := natDigitsAux_ne_nil

/-- The head of a decimal rendering is a digit character. -/
theorem natDigitsAux_head_digit {f n : Nat} (hf : n ≤ f ∨ n < 10) :
    ∃ d, d < 10 ∧ (natDigitsAux f n).head? = some (digitChar d) := by
  induction f generalizing n with
  | zero =>
    have hn : n < 10 := by omega
    exact ⟨n, hn, rfl⟩
  | succ f ih =>
    by_cases h10 : n < 10
    · exact ⟨n, h10, by simp [natDigitsAux, if_pos h10]⟩
    · obtain ⟨d, hd, hhead⟩ := ih (n := n / 10) (by omega)
      refine ⟨d, hd, ?_⟩
      simp only [natDigitsAux, if_neg h10]
      rw [List.head?_append_of_ne_nil]
      · exact hhead
      · exact natDigitsAux_ne_nil

/-- `consumeDigits` consumes exactly the digits of `natDigitsAux` and
accumulates their value. -/
theorem consumeDigits_natDigitsAux {f n : Nat} (hf : n ≤ f ∨ n < 10) (rest : Str) (a : Nat) :
    consumeDigits (natDigitsAux f n ++ rest) a =
      consumeDigits rest (a * 10 ^ (natDigitsAux f n).length + n) := by
  induction f generalizing n a rest with
  | zero =>
    have hn : n < 10 := by omega
    simp only [natDigitsAux, List.singleton_append, consumeDigits, digVal_digitChar hn,
      List.length_singleton]
    ring_nf
    simp [consumeDigits]
  | succ f ih =>
    by_cases h10 : n < 10
    · simp only [natDigitsAux, if_pos h10, List.singleton_append, consumeDigits,
        digVal_digitChar h10, List.length_singleton]
      ring_nf
    · have hrec : n / 10 ≤ f ∨ n / 10 < 10 := by omega
      simp only [natDigitsAux, if_neg h10, List.append_assoc, List.singleton_append]
      rw [ih hrec]
      simp only [consumeDigits, digVal_digitChar (Nat.mod_lt n (by omega))]
      rw [List.length_append, List.length_singleton]
      congr 1
      have : 10 * (n / 10) + n % 10 = n := Nat.div_add_mod n 10
      ring_nf
      omega

theorem consumeDigits_notDigit {s : Str} (a : Nat)
    (h : ∀ c, s.head? = some c → digVal c = none) : consumeDigits s a = (a, s) := by
  cases s with
  | nil => rfl
  | cons c cs =>
    have := h c rfl
    simp [consumeDigits, this]

/-- Round trip: parsing the decimal rendering of `n` followed by a
non-digit remainder returns `n` and the remainder. -/
theorem parseNatChars_natDigits (n : Nat) (rest : Str)
    (h : ∀ c, rest.head? = some c → digVal c = none) :
    parseNatChars (natDigits n ++ rest) = some (n, rest) := by
  obtain ⟨d, hd, hhead⟩ := natDigitsAux_head_digit (f := n) (n := n) (Or.inl le_rfl)
  obtain ⟨c, cs, hcons⟩ : ∃ c cs, natDigits n = c :: cs := by
    cases hnd : natDigits n with
    | nil => exact absurd hnd natDigits_ne_nil
    | cons c cs => exact ⟨c, cs, rfl⟩
  have hc : c = digitChar d := by
    rw [natDigits] at hcons
    rw [hcons] at hhead
    simpa using hhead
  have hsome : (digVal c).isSome := by rw [hc, digVal_digitChar hd]; rfl
  have hkey := consumeDigits_natDigitsAux (f := n) (n := n) (Or.inl le_rfl) rest 0
  rw [natDigits] at *
  rw [hcons] at hkey ⊢
  simp only [List.cons_append, parseNatChars, hsome, if_pos]
  rw [← List.cons_append, hkey, consumeDigits_notDigit _ h]
  simp

theorem digVal_notDigit_of_mem {c : Char}
    (h : c = '-' ∨ c = '\n' ∨ c = ',' ∨ c = '"' ∨ c = '\x7d') : digVal c = none := by
  rcases h with h | h | h | h | h <;> subst h <;> decide

/-- Round trip for signed decimal integers. -/
theorem parseIntChars_intRepr (i : Int) (rest : Str)
    (h : ∀ c, rest.head? = some c → digVal c = none) :
    parseIntChars (intRepr i ++ rest) = some (i, rest) := by
  by_cases hneg : i < 0
  · simp only [intRepr, if_pos hneg, List.cons_append, parseIntChars, if_pos rfl]
    rw [parseNatChars_natDigits _ _ h]
    have h2 : ((-i).toNat : Int) = -i := Int.toNat_of_nonneg (by omega)
    simp [h2]
  · simp only [intRepr, if_neg hneg]
    obtain ⟨d, hd, hhead⟩ := natDigitsAux_head_digit (f := i.toNat) (n := i.toNat) (Or.inl le_rfl)
    obtain ⟨c, cs, hcons⟩ : ∃ c cs, natDigits i.toNat = c :: cs := by
      cases hnd : natDigits i.toNat with
      | nil => exact absurd hnd natDigits_ne_nil
      | cons c cs => exact ⟨c, cs, rfl⟩
    have hc : c = digitChar d := by
      rw [natDigits] at hcons
      rw [hcons] at hhead
      simpa using hhead
    have hcne : ¬ (c = '-') := by
      rw [hc]
      interval_cases d <;> decide
    rw [hcons, List.cons_append]
    simp only [parseIntChars, if_neg hcne]
    rw [← List.cons_append, ← hcons, parseNatChars_natDigits _ _ h]
    have h2 : (i.toNat : Int) = i := Int.toNat_of_nonneg (by omega)
    simp [h2]

/-! ## JSON string escaping (models Go encoding/json with HTML escaping on) -/

/-- Lowercase hexadecimal digit character for a value below sixteen. -/
def hexDigit (d : Nat) : Char := if d < 10 then digitChar d else Char.ofNat (87 + d)

/-- Numeric value of a hexadecimal digit character. -/
def hexVal (c : Char) : Option Nat :=
  if 48 ≤ c.toNat ∧ c.toNat ≤ 57 then some (c.toNat - 48)
  else if 97 ≤ c.toNat ∧ c.toNat ≤ 102 then some (c.toNat - 87)
  else if 65 ≤ c.toNat ∧ c.toNat ≤ 70 then some (c.toNat - 55)
  else none

/-- Models the per-rune escaping of a string value performed by Go
`encoding/json` (`Marshal`/`MarshalIndent`, whose default escaper also
HTML-escapes `<`, `>` and `&`). -/
def jsonEscapeChar (c : Char) : Str :=
  if c = '"' then ['\\', '"']
  else if c = '\\' then ['\\', '\\']
  else if c = '<' then ['\\', 'u', '0', '0', '3', 'c']
  else if c = '>' then ['\\', 'u', '0', '0', '3', 'e']
  else if c = '&' then ['\\', 'u', '0', '0', '2', '6']
  else if c = '\n' then ['\\', 'n']
  else if c = '\r' then ['\\', 'r']
  else if c = '\t' then ['\\', 't']
  else if c.toNat < 32 then ['\\', 'u', '0', '0', hexDigit (c.toNat / 16), hexDigit (c.toNat % 16)]
  else if c = ' ' then ['\\', 'u', '2', '0', '2', '8']
  else if c = ' ' then ['\\', 'u', '2', '0', '2', '9']
  else [c]

/-- Escape a whole string for a JSON string literal. -/
def jsonEscape : Str → Str
  | [] => []
  | c :: cs => jsonEscapeChar c ++ jsonEscape cs

/-- Models JSON string-body decoding (as performed by `encoding/json`
when unmarshalling): consumes characters up to an unescaped closing
quote and returns the decoded content together with the remainder. -/
def parseJSONStringAux : Str → Option (Str × Str)
  | [] => none
  | c :: rest =>
    if c = '"' then some ([], rest)
    else if c = '\\' then
      match rest with
      | [] => none
      | e :: r2 =>
        if e = '"' then (parseJSONStringAux r2).map (fun p => ('"' :: p.1, p.2))
        else if e = '\\' then (parseJSONStringAux r2).map (fun p => ('\\' :: p.1, p.2))
        else if e = '/' then (parseJSONStringAux r2).map (fun p => ('/' :: p.1, p.2))
        else if e = 'n' then (parseJSONStringAux r2).map (fun p => ('\n' :: p.1, p.2))
        else if e = 'r' then (parseJSONStringAux r2).map (fun p => ('\r' :: p.1, p.2))
        else if e = 't' then (parseJSONStringAux r2).map (fun p => ('\t' :: p.1, p.2))
        else if e = 'b' then (parseJSONStringAux r2).map (fun p => ('\x08' :: p.1, p.2))
        else if e = 'f' then (parseJSONStringAux r2).map (fun p => ('\x0c' :: p.1, p.2))
        else if e = 'u' then
          match r2 with
          | a :: b :: c2 :: d :: r3 =>
            match hexVal a, hexVal b, hexVal c2, hexVal d with
            | some ha, some hb, some hc, some hd =>
              (parseJSONStringAux r3).map
                (fun p => (Char.ofNat (((ha * 16 + hb) * 16 + hc) * 16 + hd) :: p.1, p.2))
            | _, _, _, _ => none
          | _ => none
        else none
    else (parseJSONStringAux rest).map (fun p => (c :: p.1, p.2))

theorem hexVal_hexDigit {d : Nat} (h : d < 16) : hexVal (hexDigit d) = some d := by
  interval_cases d <;> decide

/-- Decoding one escaped character: the parser consumes exactly the escape
sequence of `c` and emits `c`. -/
theorem parseJSONStringAux_escChar (c : Char) (t : Str) :
    parseJSONStringAux (jsonEscapeChar c ++ t) =
      (parseJSONStringAux t).map (fun p => (c :: p.1, p.2)) := by
  by_cases h1 : c = '"'
  · subst h1
    rw [show jsonEscapeChar '"' = ['\\', '"'] from rfl, List.cons_append, List.cons_append,
      parseJSONStringAux.eq_def]
    simp
  by_cases h2 : c = '\\'
  · subst h2
    rw [show jsonEscapeChar '\\' = ['\\', '\\'] from rfl, List.cons_append, List.cons_append,
      parseJSONStringAux.eq_def]
    simp
  by_cases h3 : c = '<'
  · subst h3; rfl
  by_cases h4 : c = '>'
  · subst h4; rfl
  by_cases h5 : c = '&'
  · subst h5; rfl
  by_cases h6 : c = '\n'
  · subst h6
    rw [show jsonEscapeChar '\n' = ['\\', 'n'] from rfl, List.cons_append, List.cons_append,
      parseJSONStringAux.eq_def]
    simp
  by_cases h7 : c = '\r'
  · subst h7
    rw [show jsonEscapeChar '\r' = ['\\', 'r'] from rfl, List.cons_append, List.cons_append,
      parseJSONStringAux.eq_def]
    simp
  by_cases h8 : c = '\t'
  · subst h8
    rw [show jsonEscapeChar '\t' = ['\\', 't'] from rfl, List.cons_append, List.cons_append,
      parseJSONStringAux.eq_def]
    simp
  by_cases h9 : c.toNat < 32
  · have hhi : c.toNat / 16 < 16 := by omega
    have hlo : c.toNat % 16 < 16 := Nat.mod_lt _ (by omega)
    simp only [jsonEscapeChar, if_neg h1, if_neg h2, if_neg h3, if_neg h4, if_neg h5,
      if_neg h6, if_neg h7, if_neg h8, if_pos h9, List.cons_append, List.nil_append]
    rw [parseJSONStringAux.eq_def]
    simp +decide only [hexVal_hexDigit hhi, hexVal_hexDigit hlo, if_true, if_false,
      ite_true, ite_false, show hexVal '0' = some 0 from rfl]
    rw [show ((0 * 16 + 0) * 16 + c.toNat / 16) * 16 + c.toNat % 16 = c.toNat from by omega,
      Char.ofNat_toNat]
  by_cases h10 : c = ' '
  · subst h10; rfl
  by_cases h11 : c = ' '
  · subst h11; rfl
  · simp only [jsonEscapeChar, if_neg h1, if_neg h2, if_neg h3, if_neg h4, if_neg h5,
      if_neg h6, if_neg h7, if_neg h8, if_neg h9, if_neg h10, if_neg h11,
      List.singleton_append]
    rw [parseJSONStringAux.eq_def]
    simp [if_neg h1, if_neg h2]

/-- Decoding an escaped string: the parser returns the original string and
the remainder after the closing quote. -/
theorem parseJSONStringAux_escape (s : Str) (r : Str) :
    parseJSONStringAux (jsonEscape s ++ '"' :: r) = some (s, r) := by
  induction s with
  | nil =>
    rw [jsonEscape, List.nil_append, parseJSONStringAux.eq_def]
    simp
  | cons c cs ih =>
    rw [jsonEscape, List.append_assoc, parseJSONStringAux_escChar, ih]
    rfl

/-- Match a literal prefix, returning the remainder. -/
def stripPrefixChars : Str → Str → Option Str
  | [], s => some s
  | _ :: _, [] => none
  | p :: ps, c :: cs => if c = p then stripPrefixChars ps cs else none

theorem stripPrefixChars_append (p r : Str) : stripPrefixChars p (p ++ r) = some r := by
  induction p with
  | nil => rfl
  | cons c cs ih => simp [stripPrefixChars, ih]

/-! ## The ADR configuration value and its JSON serialization -/

/-- ADR configuration, loaded and used by each sub-command (Go struct
`AdrConfig` with JSON field names `base_directory` and `current_id`). -/
structure AdrConfig where
  BaseDir : Str
  CurrentAdr : Int
deriving DecidableEq

/-- Models `json.MarshalIndent(config, "", " ")` on an `AdrConfig` value:
a two-field JSON object, indented with one space, fields in struct order. -/
def marshalAdrConfig (c : AdrConfig) : Str :=
  "\x7b\n \"base_directory\": \"".data ++ jsonEscape c.BaseDir
    ++ "\",\n \"current_id\": ".data ++ intRepr c.CurrentAdr ++ "\n\x7d".data

/-- Models `json.Unmarshal` of a config file into an `AdrConfig` (shape
produced by `marshalAdrConfig`): object opener, the `base_directory` string,
the `current_id` number, object closer. -/
def parseAdrConfig (s : Str) : Option AdrConfig :=
  match stripPrefixChars "\x7b\n \"base_directory\": \"".data s with
  | none => none
  | some s1 =>
    match parseJSONStringAux s1 with
    | none => none
    | some (b, s2) =>
      match stripPrefixChars ",\n \"current_id\": ".data s2 with
      | none => none
      | some s3 =>
        match parseIntChars s3 with
        | none => none
        | some (n, s4) =>
          match stripPrefixChars "\n\x7d".data s4 with
          | none => none
          | some s5 => if s5 = [] then some ⟨b, n⟩ else none

/-- Round trip: parsing the serialized form of any config value returns
exactly that value. -/
theorem parseAdrConfig_marshal (c : AdrConfig) :
    parseAdrConfig (marshalAdrConfig c) = some c := by
  rw [marshalAdrConfig, parseAdrConfig]
  rw [List.append_assoc, List.append_assoc, List.append_assoc, stripPrefixChars_append]
  have h1 : jsonEscape c.BaseDir ++ ("\",\n \"current_id\": ".data
      ++ (intRepr c.CurrentAdr ++ "\n\x7d".data)) =
      jsonEscape c.BaseDir ++ '"' :: (",\n \"current_id\": ".data
      ++ (intRepr c.CurrentAdr ++ "\n\x7d".data)) := by
    simp
  have h2 := parseIntChars_intRepr c.CurrentAdr ("\n\x7d".data) (fun ch hch => by
    simp only [List.head?, Option.some.injEq] at hch
    exact digVal_notDigit_of_mem (Or.inr (Or.inl hch.symm)))
  simp only [h1, parseJSONStringAux_escape, stripPrefixChars_append, h2]
  rw [show stripPrefixChars "\n\x7d".data "\n\x7d".data = some [] from rfl]
  simp

/-! ## Filesystem model -/

/-- The filesystem: a byte-oriented key-value store keyed by path (the spec
treats filesystem primitives this way), plus the set of existing
directories (for the `os.Stat` / `os.Mkdir` logic in the init flow). -/
structure FS where
  dirs : List Str
  files : List (Str × Str)
deriving DecidableEq

def FS.empty : FS := ⟨[], []⟩

/-- Models `os.ReadFile` / `ioutil.ReadFile`. -/
def FS.readFile (fs : FS) (p : Str) : Option Str :=
  (fs.files.find? (fun e => decide (e.1 = p))).map (fun e => e.2)

/-- Models `os.WriteFile` (and `os.Create` followed by writing the whole
content): whole-file replacement. -/
def FS.writeFile (fs : FS) (p content : Str) : FS :=
  ⟨fs.dirs, (p, content) :: fs.files.filter (fun e => decide (¬ e.1 = p))⟩

/-- Models the `os.Stat` existence check on a directory. -/
def FS.dirExists (fs : FS) (d : Str) : Bool := decide (d ∈ fs.dirs)

/-- Models `os.Mkdir`. -/
def FS.mkdir (fs : FS) (d : Str) : FS := ⟨d :: fs.dirs, fs.files⟩

theorem FS.readFile_writeFile_self (fs : FS) (p c : Str) :
    (fs.writeFile p c).readFile p = some c := by
  simp [FS.readFile, FS.writeFile, List.find?]

theorem FS.writeFile_dirs (fs : FS) (p c : Str) : (fs.writeFile p c).dirs = fs.dirs := rfl

/-- Looking up a key other than `p` ignores the removal of `p`-entries. -/
theorem find?_filter_ne {p q : Str} (h : q ≠ p) (l : List (Str × Str)) :
    List.find? (fun e => decide (e.1 = q)) (l.filter (fun e => decide (¬ e.1 = p))) =
      List.find? (fun e => decide (e.1 = q)) l := by
  induction l with
  | nil => rfl
  | cons e t ih =>
    rw [List.filter_cons]
    by_cases hep : e.1 = p
    · rw [if_neg (by simp [hep])]
      rw [ih, List.find?_cons]
      have : decide (e.1 = q) = false := decide_eq_false (fun hq => h (hq ▸ hep))
      rw [this]
    · rw [if_pos (by simp [hep])]
      rw [List.find?_cons, List.find?_cons]
      cases hq : decide (e.1 = q) with
      | true => rfl
      | false => rw [ih]

theorem FS.readFile_writeFile_ne (fs : FS) (p c q : Str) (h : q ≠ p) :
    (fs.writeFile p c).readFile q = fs.readFile q := by
  simp only [FS.readFile, FS.writeFile, List.find?_cons]
  have hpq : decide ((p, c).1 = q) = false := decide_eq_false (fun hq => h hq.symm)
  rw [hpq, find?_filter_ne h]

/-- Writing a file adds at most its own path to the domain. -/
theorem FS.readFile_writeFile_isSome (fs : FS) (p c q : Str)
    (h : ((fs.writeFile p c).readFile q).isSome) :
    q = p ∨ (fs.readFile q).isSome := by
  by_cases hqp : q = p
  · exact Or.inl hqp
  · right
    rw [FS.readFile_writeFile_ne fs p c q hqp] at h
    exact h

/-! ## Path configuration and the config store operations -/

/-- Path-related configuration (Go `PathConfig`, as built by `NewPathConfig`
from the user's home directory).  `filepath.Join` is modelled as
slash-separated concatenation. -/
structure PathConfig where
  ConfigFolderPath : Str
  ConfigFilePath : Str
  TemplateFilePath : Str
  DefaultBaseFolder : Str

/-- Models `NewPathConfig`: derive all fixed paths from the home directory. -/
def NewPathConfig (home : Str) : PathConfig :=
  { ConfigFolderPath := home ++ "/.adr".data
    ConfigFilePath := home ++ "/.adr/config.json".data
    TemplateFilePath := home ++ "/.adr/template.md".data
    DefaultBaseFolder := home ++ "/adr".data }

/-- Error conditions of the config read: `getConfig` propagates the
`os.ReadFile` error when the file is absent/unreadable, and the
`json.Unmarshal` error when the content does not parse. -/
inductive ConfigError where
  | notFound
  | malformed
deriving DecidableEq

/-- Models `getConfig`: read the config file and unmarshal its JSON. -/
def getConfig (pc : PathConfig) (fs : FS) : Except ConfigError AdrConfig :=
  match fs.readFile pc.ConfigFilePath with
  | none => .error .notFound
  | some content =>
    match parseAdrConfig content with
    | none => .error .malformed
    | some c => .ok c

/-- Models `initBaseDir`: create the ADR base directory when absent;
when it already exists only an informational message is printed. -/
def initBaseDir (fs : FS) (baseDir : Str) : FS :=
  if fs.dirExists baseDir then fs else fs.mkdir baseDir

/-- The default template content installed by `initTemplate`,
byte-for-byte the Go raw-string literal. -/
def defaultTemplate : Str :=
  ("\n# \x7b\x7b.Number\x7d\x7d. \x7b\x7b.Title\x7d\x7d\n======\nDate: \x7b\x7b.Date\x7d\x7d\n\n"
    ++ "## Status\n======\n\x7b\x7b.Status\x7d\x7d\n\n## Context\n======\n\n"
    ++ "## Decision\n======\n\n## Consequences\n======\n\n").data

/-- Models `initConfig`: ensure the config folder exists (create it when
absent), then write the initial config (current id 0) as indented JSON. -/
def initConfig (pc : PathConfig) (fs : FS) (baseDir : Str) : FS :=
  let fs1 := if fs.dirExists pc.ConfigFolderPath then fs else fs.mkdir pc.ConfigFolderPath
  fs1.writeFile pc.ConfigFilePath (marshalAdrConfig ⟨baseDir, 0⟩)

/-- Models `initTemplate`: write the default template file. -/
def initTemplate (pc : PathConfig) (fs : FS) : FS :=
  fs.writeFile pc.TemplateFilePath defaultTemplate

/-- Models `updateConfig`: marshal the given config and overwrite the
config file (the Go function performs no directory creation). -/
def updateConfig (pc : PathConfig) (fs : FS) (config : AdrConfig) : FS :=
  fs.writeFile pc.ConfigFilePath (marshalAdrConfig config)

/-- `initBaseDir` never touches the file store. -/
theorem initBaseDir_readFile (fs : FS) (d q : Str) :
    (initBaseDir fs d).readFile q = fs.readFile q := by
  rw [initBaseDir]
  split
  · rfl
  · rfl

theorem ne_append_left {a x y : Str} (h : x ≠ y) : a ++ x ≠ a ++ y :=
  fun hh => h (List.append_cancel_left hh)

/-- C3: for every config value with a non-negative current id, performing a
config write followed by a config read returns a value equal to the one
written. -/
theorem claim_C3_write_read_roundtrip (pc : PathConfig) (fs : FS) (c : AdrConfig)
    (hnn : 0 ≤ c.CurrentAdr) :
    getConfig pc (updateConfig pc fs c) = .ok c := by
  simp only [getConfig, updateConfig, FS.readFile_writeFile_self, parseAdrConfig_marshal]

theorem claim_C3_witness :
    (0 : Int) ≤ (⟨"/home/u/adr".data, 2⟩ : AdrConfig).CurrentAdr ∧
      getConfig (NewPathConfig "/home/u".data)
        (updateConfig (NewPathConfig "/home/u".data) FS.empty ⟨"/home/u/adr".data, 2⟩) =
        .ok ⟨"/home/u/adr".data, 2⟩ :=
  ⟨by decide, claim_C3_write_read_roundtrip _ _ _ (by decide)⟩

/-- C4: the config read fails with the configuration-not-found condition
exactly when the config file is absent, fails with the malformed condition
exactly when the file content does not parse as the config JSON, and in
neither case returns a config value. -/
theorem claim_C4_read_error_conditions (pc : PathConfig) (fs : FS) :
    (getConfig pc fs = .error .notFound ↔ fs.readFile pc.ConfigFilePath = none) ∧
    (∀ content, fs.readFile pc.ConfigFilePath = some content →
      (getConfig pc fs = .error .malformed ↔ parseAdrConfig content = none)) ∧
    (∀ c, getConfig pc fs = .ok c →
      ∃ content, fs.readFile pc.ConfigFilePath = some content ∧
        parseAdrConfig content = some c) := by
  cases hr : fs.readFile pc.ConfigFilePath with
  | none =>
    refine ⟨by simp [getConfig, hr], ?_, ?_⟩
    · intro content hc
      cases hc
    · intro c hc
      simp [getConfig, hr] at hc
  | some content =>
    cases hp : parseAdrConfig content with
    | none =>
      refine ⟨by simp [getConfig, hr, hp], ?_, ?_⟩
      · intro content2 hc2
        cases hc2
        simp [getConfig, hr, hp]
      · intro c hc
        simp [getConfig, hr, hp] at hc
    | some c0 =>
      refine ⟨by simp [getConfig, hr, hp], ?_, ?_⟩
      · intro content2 hc2
        cases hc2
        simp [getConfig, hr, hp]
      · intro c hc
        simp only [getConfig, hr, hp] at hc
        cases hc
        exact ⟨content, rfl, hp⟩

theorem claim_C4_witness :
    getConfig (NewPathConfig "/h".data)
        (FS.empty.writeFile (NewPathConfig "/h".data).ConfigFilePath "not json".data) =
      .error .malformed :=
  ((claim_C4_read_error_conditions (NewPathConfig "/h".data)
      (FS.empty.writeFile (NewPathConfig "/h".data).ConfigFilePath "not json".data)).2.1
    "not json".data (by decide)).mpr (by decide)

/-- C8 counterexample: the config write performed by `new` (`updateConfig`)
on a state without the config folder leaves the directory set empty, so it
does not "first ensure the config folder exists" as the claim states for
every config write. -/
theorem claim_C8_counterexample :
    (updateConfig (NewPathConfig "/h".data) FS.empty ⟨"/h/adr".data, 1⟩).dirs = [] ∧
      ¬ (NewPathConfig "/h".data).ConfigFolderPath ∈
        (updateConfig (NewPathConfig "/h".data) FS.empty ⟨"/h/adr".data, 1⟩).dirs := by
  constructor
  · rfl
  · decide

/-- C8 (amended): the initial config write (`initConfig`) first ensures the
config folder exists — creating it when absent, leaving the directory set
unchanged when present — and replaces the config file with the indented
JSON serialization; the update write performed by `new` (`updateConfig`)
replaces the config file with the indented JSON serialization but performs
no directory creation. -/
theorem claim_C8_config_write_behavior (pc : PathConfig) (fs : FS) (baseDir : Str)
    (cfg : AdrConfig) :
    pc.ConfigFolderPath ∈ (initConfig pc fs baseDir).dirs ∧
    (initConfig pc fs baseDir).readFile pc.ConfigFilePath
      = some (marshalAdrConfig ⟨baseDir, 0⟩) ∧
    (pc.ConfigFolderPath ∈ fs.dirs → (initConfig pc fs baseDir).dirs = fs.dirs) ∧
    (updateConfig pc fs cfg).readFile pc.ConfigFilePath = some (marshalAdrConfig cfg) ∧
    (updateConfig pc fs cfg).dirs = fs.dirs := by
  refine ⟨?_, ?_, ?_, ?_, ?_⟩
  · rw [initConfig]
    by_cases hex : fs.dirExists pc.ConfigFolderPath
    · simp only [if_pos hex, FS.writeFile_dirs]
      rw [FS.dirExists] at hex
      simpa using hex
    · simp only [if_neg hex, FS.writeFile_dirs, FS.mkdir]
      exact List.mem_cons_self _ _
  · rw [initConfig]
    split
    · exact FS.readFile_writeFile_self ..
    · exact FS.readFile_writeFile_self ..
  · intro hmem
    rw [initConfig]
    have hex : fs.dirExists pc.ConfigFolderPath = true := by
      rw [FS.dirExists]
      simpa using hmem
    simp only [if_pos hex, FS.writeFile_dirs]
  · exact FS.readFile_writeFile_self ..
  · rfl

theorem claim_C8_witness :
    (initConfig (NewPathConfig "/h".data) ⟨[(NewPathConfig "/h".data).ConfigFolderPath], []⟩
        "/b".data).dirs = [(NewPathConfig "/h".data).ConfigFolderPath] :=
  (claim_C8_config_write_behavior (NewPathConfig "/h".data)
      ⟨[(NewPathConfig "/h".data).ConfigFolderPath], []⟩ "/b".data
      ⟨"/b".data, 0⟩).2.2.1 (by decide)

/-! ## The init command flow -/

/-- Models the `init` command action (`InitCmd`): resolve the base directory
argument (the default base folder when the argument is empty), create the
base directory when absent, write the initial config, install the template. -/
def InitCmdRun (pc : PathConfig) (fs : FS) (arg : Str) : FS :=
  let initDir := if arg = [] then pc.DefaultBaseFolder else arg
  initTemplate pc (initConfig pc (initBaseDir fs initDir) initDir)

theorem FS.readFile_mkdir (fs : FS) (d q : Str) : (fs.mkdir d).readFile q = fs.readFile q := rfl

/-- After `initConfig`, the config file holds the initial serialized config. -/
theorem initConfig_readFile_self (pc : PathConfig) (fs : FS) (b : Str) :
    (initConfig pc fs b).readFile pc.ConfigFilePath = some (marshalAdrConfig ⟨b, 0⟩) := by
  rw [initConfig]
  split
  · exact FS.readFile_writeFile_self ..
  · exact FS.readFile_writeFile_self ..

/-- `initConfig` leaves every other file unchanged. -/
theorem initConfig_readFile_ne (pc : PathConfig) (fs : FS) (b q : Str)
    (h : q ≠ pc.ConfigFilePath) : (initConfig pc fs b).readFile q = fs.readFile q := by
  rw [initConfig]
  split
  · exact FS.readFile_writeFile_ne _ _ _ _ h
  · rw [FS.readFile_writeFile_ne _ _ _ _ h, FS.readFile_mkdir]

/-- C7: every run of `init` writes a config with current id 0 for the chosen
base directory and installs the default template, replacing both regardless
of prior state, and touches no other file. -/
theorem claim_C7_init_resets (home : Str) (fs : FS) (arg : Str) :
    getConfig (NewPathConfig home) (InitCmdRun (NewPathConfig home) fs arg) =
      .ok ⟨if arg = [] then (NewPathConfig home).DefaultBaseFolder else arg, 0⟩ ∧
    (InitCmdRun (NewPathConfig home) fs arg).readFile (NewPathConfig home).TemplateFilePath
      = some defaultTemplate ∧
    (∀ q, q ≠ (NewPathConfig home).ConfigFilePath →
      q ≠ (NewPathConfig home).TemplateFilePath →
      (InitCmdRun (NewPathConfig home) fs arg).readFile q = fs.readFile q) := by
  have hne : (NewPathConfig home).ConfigFilePath ≠ (NewPathConfig home).TemplateFilePath :=
    ne_append_left (by decide)
  refine ⟨?_, ?_, ?_⟩
  · have hread : (InitCmdRun (NewPathConfig home) fs arg).readFile
        (NewPathConfig home).ConfigFilePath =
        some (marshalAdrConfig
          ⟨if arg = [] then (NewPathConfig home).DefaultBaseFolder else arg, 0⟩) := by
      rw [InitCmdRun, initTemplate]
      rw [FS.readFile_writeFile_ne _ _ _ _ hne]
      exact initConfig_readFile_self ..
    simp only [getConfig, hread, parseAdrConfig_marshal]
  · rw [InitCmdRun, initTemplate]
    exact FS.readFile_writeFile_self ..
  · intro q hq1 hq2
    rw [InitCmdRun, initTemplate]
    rw [FS.readFile_writeFile_ne _ _ _ _ hq2]
    rw [initConfig_readFile_ne _ _ _ _ hq1]
    exact initBaseDir_readFile ..

theorem claim_C7_witness :
    (InitCmdRun (NewPathConfig "/h".data)
        (FS.empty.writeFile "/h/adr/1-x.md".data "old".data) "/h/adr".data).readFile
      "/h/adr/1-x.md".data = some "old".data := by
  have h := (claim_C7_init_resets "/h".data
    (FS.empty.writeFile "/h/adr/1-x.md".data "old".data) "/h/adr".data).2.2
    "/h/adr/1-x.md".data (by decide) (by decide)
  rw [h]
  decide

/-! ## The template renderer (models html/template on the documents at hand) -/

/-- A parsed template: literal text interleaved with field actions. -/
inductive TmplPart where
  | lit (s : Str)
  | field (action : Str)
deriving DecidableEq

/-- Scan the text of an action up to the closing braces.  Models the
action-scanning step of Go template parsing. -/
def takeAction : Str → Option (Str × Str)
  | '\x7d' :: '\x7d' :: rest => some ([], rest)
  | c :: rest => (takeAction rest).map (fun p => (c :: p.1, p.2))
  | [] => none

/-- Parse a template into literal and action parts; the first argument is
recursion fuel (`parseTmplParts` supplies the input length, which always
suffices).  Adjacent literal characters are merged. -/
def parseTmplAux : Nat → Str → Option (List TmplPart)
  | _, [] => some []
  | 0, _ :: _ => none
  | f+1, '\x7b' :: '\x7b' :: rest =>
    match takeAction rest with
    | none => none
    | some (act, r) =>
      match parseTmplAux f r with
      | none => none
      | some ps => some (.field act :: ps)
  | f+1, c :: rest =>
    match parseTmplAux f rest with
    | none => none
    | some (.lit s :: ps) => some (.lit (c :: s) :: ps)
    | some ps => some (.lit [c] :: ps)

/-- Models `template.ParseFiles` on the content of the template file
(restricted to the field-action forms the tool uses). -/
def parseTmplParts (s : Str) : Option (List TmplPart) := parseTmplAux s.length s

/-- ADR status (Go `AdrStatus` string constants). -/
inductive AdrStatus where
  | PROPOSED
  | ACCEPTED
  | DEPRECATED
  | SUPERSEDED
deriving DecidableEq

/-- The string value of an ADR status constant. -/
def AdrStatus.str : AdrStatus → Str
  | .PROPOSED => "Proposed".data
  | .ACCEPTED => "Accepted".data
  | .DEPRECATED => "Deprecated".data
  | .SUPERSEDED => "Superseded".data

/-- ADR basic structure (Go `Adr`). -/
structure Adr where
  Number : Int
  Title : Str
  Date : Str
  Status : AdrStatus
deriving DecidableEq

/-- Models the text-context HTML escaping `html/template` applies to one
character of an interpolated value (`&`, `<`, `>`, `"`, `'` become entities;
the NUL character becomes the replacement character). -/
def htmlEscapeChar (c : Char) : Str :=
  if c = '&' then "&amp;".data
  else if c = '<' then "&lt;".data
  else if c = '>' then "&gt;".data
  else if c = '"' then "&#34;".data
  else if c = '\'' then "&#39;".data
  else if c = '\x00' then ['�']
  else [c]

/-- HTML-escape a whole interpolated value. -/
def htmlEscape : Str → Str
  | [] => []
  | c :: cs => htmlEscapeChar c ++ htmlEscape cs

/-- The textual value substituted for a field action of the ADR record,
HTML-escaped as `html/template` does in text context; unknown actions are
execution errors. -/
def fieldValue (adr : Adr) (action : Str) : Option Str :=
  if action = ".Number".data then some (htmlEscape (intRepr adr.Number))
  else if action = ".Title".data then some (htmlEscape adr.Title)
  else if action = ".Date".data then some (htmlEscape adr.Date)
  else if action = ".Status".data then some (htmlEscape adr.Status.str)
  else none

/-- Models `tmpl.Execute`: write parts left to right; on a failing action the
output produced so far stands (the file content written before the error)
and the flag is false. -/
def execTmpl (adr : Adr) : List TmplPart → Str × Bool
  | [] => ([], true)
  | .lit s :: ps =>
    let r := execTmpl adr ps
    (s ++ r.1, r.2)
  | .field a :: ps =>
    match fieldValue adr a with
    | none => ([], false)
    | some v =>
      let r := execTmpl adr ps
      (v ++ r.1, r.2)

/-- The parsed form of the default template. -/
def defaultParts : List TmplPart :=
  [.lit "\n# ".data, .field ".Number".data, .lit ". ".data, .field ".Title".data,
   .lit "\n======\nDate: ".data, .field ".Date".data,
   .lit "\n\n## Status\n======\n".data, .field ".Status".data,
   .lit ("\n\n## Context\n======\n\n## Decision\n======\n\n"
     ++ "## Consequences\n======\n\n").data]

theorem parseTmplParts_defaultTemplate : parseTmplParts defaultTemplate = some defaultParts := by
  decide

/-- Models parse-then-execute of a template file content: `none` on a parse
or execution error, otherwise the fully rendered output. -/
def renderTemplate (tmpl : Str) (adr : Adr) : Option Str :=
  match parseTmplParts tmpl with
  | none => none
  | some ps =>
    let r := execTmpl adr ps
    if r.2 then some r.1 else none

/-- Executing the default template succeeds and produces the fixed document
shape around the four escaped field values. -/
theorem execTmpl_defaultParts (adr : Adr) :
    execTmpl adr defaultParts =
      ("\n# ".data ++ htmlEscape (intRepr adr.Number) ++ ". ".data ++ htmlEscape adr.Title
        ++ "\n======\nDate: ".data ++ htmlEscape adr.Date ++ "\n\n## Status\n======\n".data
        ++ htmlEscape adr.Status.str
        ++ ("\n\n## Context\n======\n\n## Decision\n======\n\n"
          ++ "## Consequences\n======\n\n").data,
       true) := by
  simp +decide [execTmpl, defaultParts, fieldValue]

theorem renderTemplate_default (adr : Adr) :
    renderTemplate defaultTemplate adr =
      some ("\n# ".data ++ htmlEscape (intRepr adr.Number) ++ ". ".data ++ htmlEscape adr.Title
        ++ "\n======\nDate: ".data ++ htmlEscape adr.Date ++ "\n\n## Status\n======\n".data
        ++ htmlEscape adr.Status.str
        ++ ("\n\n## Context\n======\n\n## Decision\n======\n\n"
          ++ "## Consequences\n======\n\n").data) := by
  rw [renderTemplate, parseTmplParts_defaultTemplate]
  simp only [execTmpl_defaultParts]
  simp

/-- Characters outside the escaped set pass through HTML escaping. -/
theorem htmlEscapeChar_eq_self {c : Char}
    (h : ¬(c = '&' ∨ c = '<' ∨ c = '>' ∨ c = '"' ∨ c = '\'' ∨ c = '\x00')) :
    htmlEscapeChar c = [c] := by
  push_neg at h
  obtain ⟨h1, h2, h3, h4, h5, h6⟩ := h
  rw [htmlEscapeChar, if_neg h1, if_neg h2, if_neg h3, if_neg h4, if_neg h5, if_neg h6]

/-- A string none of whose characters are escaped passes through unchanged. -/
theorem htmlEscape_eq_self {s : Str}
    (h : ∀ c ∈ s, htmlEscapeChar c = [c]) : htmlEscape s = s := by
  induction s with
  | nil => rfl
  | cons c cs ih =>
    rw [htmlEscape, h c (List.mem_cons_self ..), ih (fun d hd => h d (List.mem_cons_of_mem _ hd))]
    rfl

theorem htmlEscapeChar_length_pos (c : Char) : 1 ≤ (htmlEscapeChar c).length := by
  rw [htmlEscapeChar]
  split
  · decide
  split
  · decide
  split
  · decide
  split
  · decide
  split
  · decide
  split
  · decide
  · simp

theorem htmlEscape_length_ge (s : Str) : s.length ≤ (htmlEscape s).length := by
  induction s with
  | nil => decide
  | cons c cs ih =>
    rw [htmlEscape, List.length_append, List.length_cons]
    have := htmlEscapeChar_length_pos c
    omega

theorem htmlEscapeChar_special_length {c : Char}
    (h : c = '&' ∨ c = '<' ∨ c = '>' ∨ c = '\'' ∨ c = '"') :
    4 ≤ (htmlEscapeChar c).length := by
  rcases h with h | h | h | h | h <;> subst h <;> decide

/-- A string containing an HTML-special character strictly grows under
escaping, hence is changed by it. -/
theorem htmlEscape_ne_self {s : Str}
    (h : ∃ c ∈ s, c = '&' ∨ c = '<' ∨ c = '>' ∨ c = '\'' ∨ c = '"') :
    htmlEscape s ≠ s := by
  obtain ⟨c, hc, hsp⟩ := h
  have hlen : s.length < (htmlEscape s).length := by
    induction s with
    | nil => cases hc
    | cons d ds ih =>
      rw [htmlEscape, List.length_append, List.length_cons]
      rcases List.mem_cons.mp hc with hd | hd
      · have h4 : 4 ≤ (htmlEscapeChar d).length := htmlEscapeChar_special_length (hd ▸ hsp)
        have := htmlEscape_length_ge ds
        omega
      · have := ih hd
        have := htmlEscapeChar_length_pos d
        omega
  intro heq
  rw [heq] at hlen
  omega

/-! ## Date formatting (models time.Format "02-01-2006 15:04:05") -/

/-- Two-digit zero-padded field (Go reference layout `02`, `01`, `15`,
`04`, `05`). -/
def pad2 (n : Nat) : Str := if n < 10 then ['0', digitChar n] else natDigits n

/-- Four-digit zero-padded year (Go reference layout `2006`). -/
def pad4 (y : Nat) : Str :=
  if y < 10 then '0' :: '0' :: '0' :: [digitChar y]
  else if y < 100 then '0' :: '0' :: natDigits y
  else if y < 1000 then '0' :: natDigits y
  else natDigits y

/-- The date part of the layout: `DD-MM-YYYY`. -/
def goDateFormat (day mon year : Nat) : Str := pad2 day ++ '-' :: pad2 mon ++ '-' :: pad4 year

/-- The time part of the layout: `HH:MM:SS`. -/
def goTimeFormat (hour minute second : Nat) : Str :=
  pad2 hour ++ ':' :: pad2 minute ++ ':' :: pad2 second

/-- Models `time.Now().Format("02-01-2006 15:04:05")` on given components. -/
def goDateTimeFormat (day mon year hour minute second : Nat) : Str :=
  goDateFormat day mon year ++ ' ' :: goTimeFormat hour minute second

theorem htmlEscapeChar_digitChar {d : Nat} (h : d < 10) :
    htmlEscapeChar (digitChar d) = [digitChar d] := by
  interval_cases d <;> decide

theorem escInv_natDigits (n : Nat) : ∀ c ∈ natDigits n, htmlEscapeChar c = [c] := by
  intro c hc
  obtain ⟨d, hd, hcd⟩ := natDigits_digits n c hc
  rw [hcd, htmlEscapeChar_digitChar hd]

theorem escInv_pad2 (n : Nat) : ∀ c ∈ pad2 n, htmlEscapeChar c = [c] := by
  intro c hc
  by_cases h10 : n < 10
  · rw [pad2, if_pos h10] at hc
    simp only [List.mem_cons, List.not_mem_nil, or_false] at hc
    rcases hc with h | h
    · subst h; decide
    · rw [h, htmlEscapeChar_digitChar h10]
  · rw [pad2, if_neg h10] at hc
    exact escInv_natDigits _ c hc

theorem escInv_pad4 (y : Nat) : ∀ c ∈ pad4 y, htmlEscapeChar c = [c] := by
  intro c hc
  by_cases h1 : y < 10
  · rw [pad4, if_pos h1] at hc
    simp only [List.mem_cons, List.not_mem_nil, or_false] at hc
    rcases hc with h | h | h | h
    · subst h; decide
    · subst h; decide
    · subst h; decide
    · rw [h, htmlEscapeChar_digitChar h1]
  by_cases h2 : y < 100
  · rw [pad4, if_neg h1, if_pos h2] at hc
    simp only [List.mem_cons] at hc
    rcases hc with h | h | h
    · subst h; decide
    · subst h; decide
    · exact escInv_natDigits _ c h
  by_cases h3 : y < 1000
  · rw [pad4, if_neg h1, if_neg h2, if_pos h3] at hc
    simp only [List.mem_cons] at hc
    rcases hc with h | h
    · subst h; decide
    · exact escInv_natDigits _ c h
  · rw [pad4, if_neg h1, if_neg h2, if_neg h3] at hc
    exact escInv_natDigits _ c hc

theorem escInv_append {a b : Str} (ha : ∀ c ∈ a, htmlEscapeChar c = [c])
    (hb : ∀ c ∈ b, htmlEscapeChar c = [c]) : ∀ c ∈ a ++ b, htmlEscapeChar c = [c] := by
  intro c hc
  rcases List.mem_append.mp hc with h | h
  · exact ha c h
  · exact hb c h

theorem escInv_cons {x : Char} {b : Str} (hx : htmlEscapeChar x = [x])
    (hb : ∀ c ∈ b, htmlEscapeChar c = [c]) : ∀ c ∈ x :: b, htmlEscapeChar c = [c] := by
  intro c hc
  rcases List.mem_cons.mp hc with h | h
  · rw [h, hx]
  · exact hb c h

/-- The formatted date-time passes through HTML escaping unchanged. -/
theorem htmlEscape_goDateTimeFormat (day mon year hour minute second : Nat) :
    htmlEscape (goDateTimeFormat day mon year hour minute second) =
      goDateTimeFormat day mon year hour minute second := by
  apply htmlEscape_eq_self
  rw [goDateTimeFormat, goDateFormat, goTimeFormat]
  exact escInv_append
    (escInv_append
      (escInv_append (escInv_pad2 day) (escInv_cons (by decide) (escInv_pad2 mon)))
      (escInv_cons (by decide) (escInv_pad4 year)))
    (escInv_cons (by decide)
      (escInv_append
        (escInv_append (escInv_pad2 hour) (escInv_cons (by decide) (escInv_pad2 minute)))
        (escInv_cons (by decide) (escInv_pad2 second))))

/-- C6: rendering the installed default template with number 1, title
"Test ADR Creation", status Proposed and the formatted current date yields
output containing the literal line `# 1. Test ADR Creation`, the line
`## Status` followed by `Proposed`, and a `Date:` line containing the date
in DD-MM-YYYY format. -/
theorem claim_C6_default_template_render (day mon year hour minute second : Nat) :
    ∃ out, renderTemplate defaultTemplate
        ⟨1, "Test ADR Creation".data,
          goDateTimeFormat day mon year hour minute second, .PROPOSED⟩ = some out ∧
      (∃ s t, out = s ++ "\n# 1. Test ADR Creation\n".data ++ t) ∧
      (∃ s t, out = s ++ "\n## Status\n======\nProposed\n".data ++ t) ∧
      (∃ s t, out = s ++ ("\nDate: ".data ++ goDateFormat day mon year) ++ t) := by
  have e1 : htmlEscape (intRepr 1) = "1".data := by decide
  have e2 : htmlEscape "Test ADR Creation".data = "Test ADR Creation".data := by decide
  have e3 : htmlEscape (AdrStatus.PROPOSED.str) = "Proposed".data := by decide
  have e4 := htmlEscape_goDateTimeFormat day mon year hour minute second
  refine ⟨_, renderTemplate_default _, ?_, ?_, ?_⟩
  · refine ⟨[], "======\nDate: ".data ++ goDateTimeFormat day mon year hour minute second
      ++ ("\n\n## Status\n======\nProposed\n\n## Context\n======\n\n"
        ++ "## Decision\n======\n\n## Consequences\n======\n\n").data, ?_⟩
    simp [e1, e2, e3, e4, List.append_assoc]
  · refine ⟨"\n# 1. Test ADR Creation\n======\nDate: ".data
      ++ goDateTimeFormat day mon year hour minute second ++ "\n".data,
      ("\n## Context\n======\n\n## Decision\n======\n\n"
        ++ "## Consequences\n======\n\n").data, ?_⟩
    simp [e1, e2, e3, e4, List.append_assoc]
  · refine ⟨"\n# 1. Test ADR Creation\n======".data,
      (' ' :: goTimeFormat hour minute second)
      ++ ("\n\n## Status\n======\nProposed\n\n## Context\n======\n\n"
        ++ "## Decision\n======\n\n## Consequences\n======\n\n").data, ?_⟩
    simp only [e1, e2, e3, e4]
    simp [goDateTimeFormat, List.append_assoc]

/-- C9: rendering goes through html/template text-context escaping, so the
title embedded in the rendered document is its HTML-escaped form; a title
containing an HTML-special character is changed by escaping (it does not
appear verbatim), and a title appearing verbatim is free of such characters. -/
theorem claim_C9_title_html_escaped (n : Int) (title date : Str) (st : AdrStatus) :
    (∃ out s t, renderTemplate defaultTemplate ⟨n, title, date, st⟩ = some out ∧
      out = s ++ htmlEscape title ++ t) ∧
    ((∃ c ∈ title, c = '&' ∨ c = '<' ∨ c = '>' ∨ c = '\'' ∨ c = '"') →
      htmlEscape title ≠ title) ∧
    (htmlEscape title = title →
      ∀ c ∈ title, ¬(c = '&' ∨ c = '<' ∨ c = '>' ∨ c = '\'' ∨ c = '"')) := by
  refine ⟨?_, ?_, ?_⟩
  · refine ⟨_, "\n# ".data ++ htmlEscape (intRepr n) ++ ". ".data,
      "\n======\nDate: ".data ++ htmlEscape date ++ "\n\n## Status\n======\n".data
        ++ htmlEscape st.str
        ++ ("\n\n## Context\n======\n\n## Decision\n======\n\n"
          ++ "## Consequences\n======\n\n").data,
      renderTemplate_default _, ?_⟩
    simp [List.append_assoc]
  · exact htmlEscape_ne_self
  · intro heq c hc hsp
    exact htmlEscape_ne_self ⟨c, hc, hsp⟩ heq

theorem claim_C9_witness :
    htmlEscape "a&b".data ≠ "a&b".data ∧ htmlEscape "a&b".data = "a&amp;b".data :=
  ⟨(claim_C9_title_html_escaped 1 "a&b".data [] .PROPOSED).2.1 ⟨'&', by decide, Or.inl rfl⟩,
    by decide⟩

/-! ## The new-ADR operation and the new command -/

/-- Models `strings.Join(words, " ")`. -/
def joinWords : List Str → Str
  | [] => []
  | [w] => w
  | w :: ws => w ++ ' ' :: joinWords ws

/-- Models `strings.Join(parts, "-")`. -/
def joinHyphen : List Str → Str
  | [] => []
  | [w] => w
  | w :: ws => w ++ '-' :: joinHyphen ws

/-- The cutset of `strings.Trim(s, "\n \t")`. -/
def isCutChar (c : Char) : Bool := decide (c = '\n' ∨ c = ' ' ∨ c = '\t')

/-- Strip leading cutset characters. -/
def trimLeftCut : Str → Str
  | [] => []
  | c :: cs => if isCutChar c then trimLeftCut cs else c :: cs

/-- Models `strings.Trim(s, "\n \t")`: strip leading and trailing cutset
characters. -/
def trimCut (s : Str) : Str := (trimLeftCut ((trimLeftCut s).reverse)).reverse

/-- Models `strings.Split(s, " ")`. -/
def splitSpace : Str → List Str
  | [] => [[]]
  | c :: r =>
    if c = ' ' then [] :: splitSpace r
    else
      match splitSpace r with
      | [] => [[c]]
      | h :: t => (c :: h) :: t

/-- The generated ADR file name, from `newAdr`:
`strconv.Itoa(adr.Number) + "-" +
strings.Join(strings.Split(strings.Trim(adr.Title, "\n \t"), " "), "-") + ".md"`. -/
def adrFileName (number : Int) (title : Str) : Str :=
  intRepr number ++ '-' :: joinHyphen (splitSpace (trimCut title)) ++ ".md".data

/-- Events observable in a command run. -/
inductive Event where
  | configWrite (c : AdrConfig)
  | fileCreate (path : Str)
deriving DecidableEq

/-- Models `newAdr`: build the ADR record (title joined from the arguments,
the formatted date, the config's current id, status Proposed), parse the
template file, create the ADR file under the config's base directory and
execute the template into it.  Returns the new filesystem, the success
flag, and the trace of file-creation events. -/
def newAdr (pc : PathConfig) (fs : FS) (config : AdrConfig) (adrName : List Str)
    (dateStr : Str) : FS × Bool × List Event :=
  match fs.readFile pc.TemplateFilePath with
  | none => (fs, false, [])
  | some tmplContent =>
    match parseTmplParts tmplContent with
    | none => (fs, false, [])
    | some parts =>
      let adr : Adr := ⟨config.CurrentAdr, joinWords adrName, dateStr, .PROPOSED⟩
      let path := config.BaseDir ++ '/' :: adrFileName adr.Number adr.Title
      let r := execTmpl adr parts
      (fs.writeFile path r.1, r.2, [.fileCreate path])

/-- Models the `new` command action (`NewCmd`): read the config, increment
the current id, write the config back, then create the new ADR. -/
def NewCmdRun (pc : PathConfig) (fs : FS) (args : List Str) (dateStr : Str) :
    FS × Bool × List Event :=
  match getConfig pc fs with
  | .error _ => (fs, false, [])
  | .ok cfg =>
    let cfg2 : AdrConfig := ⟨cfg.BaseDir, cfg.CurrentAdr + 1⟩
    let fs1 := updateConfig pc fs cfg2
    let r := newAdr pc fs1 cfg2 args dateStr
    (r.1, r.2.1, .configWrite cfg2 :: r.2.2)

/-- C2: in every `new` invocation, any file-creation event is strictly
preceded in the trace by the write of the incremented config. -/
theorem claim_C2_config_write_precedes_create (pc : PathConfig) (fs : FS) (args : List Str)
    (dateStr : Str) (j : Nat) (p : Str)
    (hj : (NewCmdRun pc fs args dateStr).2.2.get? j = some (.fileCreate p)) :
    ∃ i c0, i < j ∧
      (NewCmdRun pc fs args dateStr).2.2.get? i = some (.configWrite c0) ∧
      getConfig pc fs = .ok ⟨c0.BaseDir, c0.CurrentAdr - 1⟩ := by
  cases hg : getConfig pc fs with
  | error e =>
    rw [NewCmdRun] at hj
    rw [hg] at hj
    simp at hj
  | ok cfg =>
    rw [NewCmdRun] at hj ⊢
    rw [hg] at hj ⊢
    have hj0 : j ≠ 0 := by
      intro h0
      subst h0
      simp only [List.get?] at hj
      cases hj
    refine ⟨0, ⟨cfg.BaseDir, cfg.CurrentAdr + 1⟩, by omega, rfl, ?_⟩
    simp only [Int.add_sub_cancel]
  
theorem claim_C2_witness :
    ∃ i c0, i < 1 ∧
      (NewCmdRun (NewPathConfig "/h".data)
        ((FS.empty.writeFile (NewPathConfig "/h".data).TemplateFilePath defaultTemplate).writeFile
          (NewPathConfig "/h".data).ConfigFilePath
          (marshalAdrConfig ⟨"/h/adr".data, 0⟩))
        ["x".data] "01-01-2026 10:00:00".data).2.2.get? i = some (.configWrite c0) ∧
      getConfig (NewPathConfig "/h".data)
        ((FS.empty.writeFile (NewPathConfig "/h".data).TemplateFilePath defaultTemplate).writeFile
          (NewPathConfig "/h".data).ConfigFilePath
          (marshalAdrConfig ⟨"/h/adr".data, 0⟩)) = .ok ⟨c0.BaseDir, c0.CurrentAdr - 1⟩ :=
  claim_C2_config_write_precedes_create _ _ _ _ 1 "/h/adr/1-x.md".data (by decide)

/-- Every generated ADR path ends in `d` (from the `.md` extension). -/
theorem adrPath_getLast (base : Str) (num : Int) (title : Str) :
    (base ++ '/' :: adrFileName num title).getLast? = some 'd' := by
  rw [adrFileName]
  rw [← List.cons_append, ← List.append_assoc, List.getLast?_append]
  rfl

/-- The config file path ends in `n` (from `.json`). -/
theorem configFilePath_getLast (home : Str) :
    ((NewPathConfig home).ConfigFilePath).getLast? = some 'n' := by
  rw [NewPathConfig]
  rw [List.getLast?_append]
  rfl

/-- A generated ADR path never collides with the config file path. -/
theorem adrPath_ne_configFilePath (home base : Str) (num : Int) (title : Str) :
    base ++ '/' :: adrFileName num title ≠ (NewPathConfig home).ConfigFilePath := by
  intro h
  have h1 := adrPath_getLast base num title
  rw [h, configFilePath_getLast] at h1
  cases h1

/-- C10: `newAdr` neither reads nor writes the config file — the persisted
config bytes and the config read result are unchanged by it — it changes no
directory, the only file it may create or change is the single ADR file at
the generated path, and its trace contains no config write; incrementing
and persisting the current id is solely the caller's responsibility. -/
theorem claim_C10_newAdr_frame (home : Str) (fs : FS) (cfg : AdrConfig)
    (words : List Str) (dateStr : Str) :
    ((newAdr (NewPathConfig home) fs cfg words dateStr).1.readFile
        (NewPathConfig home).ConfigFilePath
      = fs.readFile (NewPathConfig home).ConfigFilePath) ∧
    getConfig (NewPathConfig home) (newAdr (NewPathConfig home) fs cfg words dateStr).1
      = getConfig (NewPathConfig home) fs ∧
    (newAdr (NewPathConfig home) fs cfg words dateStr).1.dirs = fs.dirs ∧
    (∀ q, q ≠ cfg.BaseDir ++ '/' :: adrFileName cfg.CurrentAdr (joinWords words) →
      (newAdr (NewPathConfig home) fs cfg words dateStr).1.readFile q = fs.readFile q) ∧
    (∀ ev ∈ (newAdr (NewPathConfig home) fs cfg words dateStr).2.2,
      ∀ c0, ev ≠ .configWrite c0) := by
  rcases hT : fs.readFile (NewPathConfig home).TemplateFilePath with _ | tmpl
  · refine ⟨?_, ?_, ?_, ?_, ?_⟩ <;> simp [newAdr, hT]
  rcases hP : parseTmplParts tmpl with _ | parts
  · refine ⟨?_, ?_, ?_, ?_, ?_⟩ <;> simp [newAdr, hP, hT]
  · have hcfg : (newAdr (NewPathConfig home) fs cfg words dateStr).1.readFile
        (NewPathConfig home).ConfigFilePath
        = fs.readFile (NewPathConfig home).ConfigFilePath := by
      simp only [newAdr, hT, hP]
      exact FS.readFile_writeFile_ne _ _ _ _
        (adrPath_ne_configFilePath home cfg.BaseDir cfg.CurrentAdr (joinWords words)).symm
    refine ⟨hcfg, ?_, ?_, ?_, ?_⟩
    · rw [getConfig, getConfig, hcfg]
    · simp only [newAdr, hT, hP]
      rfl
    · intro q hq
      simp only [newAdr, hT, hP]
      exact FS.readFile_writeFile_ne _ _ _ _ hq
    · intro ev hev c0
      simp only [newAdr, hT, hP] at hev
      rcases List.mem_singleton.mp hev with h
      rw [h]
      intro hcontra
      cases hcontra

theorem claim_C10_witness :
    (newAdr (NewPathConfig "/h".data)
        (FS.empty.writeFile (NewPathConfig "/h".data).TemplateFilePath defaultTemplate)
        ⟨"/h/adr".data, 1⟩ ["x".data] "d".data).1.readFile "/q.txt".data
      = (FS.empty.writeFile (NewPathConfig "/h".data).TemplateFilePath
          defaultTemplate).readFile "/q.txt".data :=
  (claim_C10_newAdr_frame "/h".data
      (FS.empty.writeFile (NewPathConfig "/h".data).TemplateFilePath defaultTemplate)
      ⟨"/h/adr".data, 1⟩ ["x".data] "d".data).2.2.2.1 "/q.txt".data (by decide)

/-! ## Split/join/trim identities for clean titles -/

theorem splitSpace_ne_nil (s : Str) : splitSpace s ≠ [] := by
  cases s with
  | nil => simp [splitSpace]
  | cons c r =>
    rw [splitSpace]
    split
    · simp
    · split <;> simp

theorem splitSpace_nospace {w : Str} (h : ∀ c ∈ w, c ≠ ' ') : splitSpace w = [w] := by
  induction w with
  | nil => rfl
  | cons c r ih =>
    rw [splitSpace, if_neg (by exact_mod_cast h c (List.mem_cons_self ..))]
    rw [ih (fun d hd => h d (List.mem_cons_of_mem _ hd))]

theorem splitSpace_append {w : Str} (hw : ∀ c ∈ w, c ≠ ' ') (s : Str) :
    ∀ h t, splitSpace s = h :: t → splitSpace (w ++ s) = (w ++ h) :: t := by
  induction w with
  | nil =>
    intro h t hs
    simpa using hs
  | cons c r ih =>
    intro h t hs
    rw [List.cons_append, splitSpace,
      if_neg (by exact_mod_cast hw c (List.mem_cons_self ..))]
    rw [ih (fun d hd => hw d (List.mem_cons_of_mem _ hd)) h t hs]
    rfl

/-- Splitting the space-joined clean words returns exactly the words. -/
theorem splitSpace_joinWords {words : List Str} (hne : words ≠ [])
    (hw : ∀ w ∈ words, ∀ c ∈ w, c ≠ ' ') :
    splitSpace (joinWords words) = words := by
  induction words with
  | nil => exact absurd rfl hne
  | cons w ws ih =>
    cases ws with
    | nil =>
      rw [joinWords]
      exact splitSpace_nospace (hw w (List.mem_cons_self ..))
    | cons w2 ws2 =>
      rw [joinWords]
      have hrest : splitSpace (' ' :: joinWords (w2 :: ws2)) =
          [] :: splitSpace (joinWords (w2 :: ws2)) := by
        rw [splitSpace]
        simp
      have hih : splitSpace (joinWords (w2 :: ws2)) = w2 :: ws2 :=
        ih (List.cons_ne_nil _ _) (fun v hv => hw v (List.mem_cons_of_mem _ hv))
      rw [splitSpace_append (hw w (List.mem_cons_self ..)) _ [] (splitSpace (joinWords (w2 :: ws2)))
        (by rw [hrest]), hih]
      · simp
      · exact List.cons_ne_nil _ _

theorem trimLeftCut_eq_self {s : Str}
    (h : ∀ c, s.head? = some c → isCutChar c = false) : trimLeftCut s = s := by
  cases s with
  | nil => rfl
  | cons c cs =>
    rw [trimLeftCut, if_neg]
    rw [h c rfl]
    simp

theorem joinWords_head? {w : Str} {ws : List Str} (hw : w ≠ []) :
    (joinWords (w :: ws)).head? = w.head? := by
  cases ws with
  | nil => rfl
  | cons w2 ws2 =>
    rw [joinWords]
    · exact List.head?_append_of_ne_nil _ hw
    · exact List.cons_ne_nil _ _

theorem joinWords_getLast? {words : List Str} (hne : words ≠ [])
    (hw : ∀ w ∈ words, w ≠ []) :
    ∃ w ∈ words, (joinWords words).getLast? = w.getLast? := by
  induction words with
  | nil => exact absurd rfl hne
  | cons w ws ih =>
    cases ws with
    | nil => exact ⟨w, List.mem_cons_self .., rfl⟩
    | cons w2 ws2 =>
      obtain ⟨v, hv, heq⟩ := ih (List.cons_ne_nil _ _)
        (fun u hu => hw u (List.mem_cons_of_mem _ hu))
      refine ⟨v, List.mem_cons_of_mem _ hv, ?_⟩
      rw [joinWords]
      · rw [List.getLast?_append]
        rw [show (' ' :: joinWords (w2 :: ws2)) = [' '] ++ joinWords (w2 :: ws2) from rfl]
        rw [List.getLast?_append, heq]
        have hvne : v ≠ [] := hw v (List.mem_cons_of_mem _ hv)
        obtain ⟨c, hc⟩ := Option.isSome_iff_exists.mp (List.getLast?_isSome.mpr hvne)
        rw [hc]
        rfl
      · exact List.cons_ne_nil _ _

/-- Trimming is the identity on a string whose first and last characters are
not in the cutset. -/
theorem trimCut_eq_self {s : Str}
    (h1 : ∀ c, s.head? = some c → isCutChar c = false)
    (h2 : ∀ c, s.getLast? = some c → isCutChar c = false) : trimCut s = s := by
  rw [trimCut, trimLeftCut_eq_self h1]
  rw [trimLeftCut_eq_self (by
    intro c hc
    rw [List.head?_reverse] at hc
    exact h2 c hc)]
  exact List.reverse_reverse s

/-- The space-joined clean words are unchanged by trimming. -/
theorem trimCut_joinWords {words : List Str} (hne : words ≠ [])
    (hw : ∀ w ∈ words, w ≠ [] ∧ ∀ c ∈ w, isCutChar c = false) :
    trimCut (joinWords words) = joinWords words := by
  apply trimCut_eq_self
  · intro c hc
    cases words with
    | nil => exact absurd rfl hne
    | cons w ws =>
      rw [joinWords_head? (hw w (List.mem_cons_self ..)).1] at hc
      have hmem : c ∈ w := by
        cases w with
        | nil => cases hc
        | cons a as =>
          cases hc
          exact List.mem_cons_self ..
      exact (hw w (List.mem_cons_self ..)).2 c hmem
  · intro c hc
    obtain ⟨v, hv, heq⟩ := joinWords_getLast? hne (fun u hu => (hw u hu).1)
    rw [heq] at hc
    obtain ⟨hvne, hceq⟩ := List.mem_getLast?_eq_getLast hc
    rw [hceq]
    exact (hw v hv).2 _ (List.getLast_mem hvne)

theorem natDigitsAux_head_ne_zero {f n : Nat} (hf : n ≤ f ∨ n < 10) (hpos : 0 < n) :
    ¬ (natDigitsAux f n).head? = some '0' := by
  induction f generalizing n with
  | zero =>
    have h10 : n < 10 := by omega
    rw [natDigitsAux]
    simp only [List.head?_cons, Option.some.injEq]
    interval_cases n <;> decide
  | succ f ih =>
    by_cases h10 : n < 10
    · simp only [natDigitsAux, if_pos h10, List.head?_cons, Option.some.injEq]
      interval_cases n <;> decide
    · simp only [natDigitsAux, if_neg h10]
      rw [List.head?_append_of_ne_nil _ natDigitsAux_ne_nil]
      exact ih (by omega) (by omega)

/-- C5: for clean nonempty title words, a successful `new` creates its file
in the base directory under the name `<plain decimal id>-<words joined by
hyphens>.md`; the decimal rendering has no leading zero (no padding); and
surrounding whitespace of the title is trimmed (concrete instance). -/
theorem claim_C5_generated_filename (home : Str) (fs : FS) (cfg : AdrConfig)
    (words : List Str) (dateStr : Str) (hne : words ≠ [])
    (hclean : ∀ w ∈ words, w ≠ [] ∧ ∀ c ∈ w, c ≠ ' ' ∧ c ≠ '\n' ∧ c ≠ '\t') :
    adrFileName cfg.CurrentAdr (joinWords words)
      = intRepr cfg.CurrentAdr ++ '-' :: joinHyphen words ++ ".md".data ∧
    (∀ n : Nat, 0 < n → ¬ (natDigits n).head? = some '0') ∧
    ((newAdr (NewPathConfig home) fs cfg words dateStr).2.1 = true →
      ((newAdr (NewPathConfig home) fs cfg words dateStr).1.readFile
        (cfg.BaseDir ++ '/' :: (intRepr cfg.CurrentAdr ++ '-' :: joinHyphen words
          ++ ".md".data))).isSome) ∧
    adrFileName 7 (joinWords [" Hello".data, "World\n".data]) = "7-Hello-World.md".data := by
  have hcut : ∀ w ∈ words, w ≠ [] ∧ ∀ c ∈ w, isCutChar c = false := by
    intro w hw
    refine ⟨(hclean w hw).1, ?_⟩
    intro c hc
    have h3 := (hclean w hw).2 c hc
    rw [isCutChar]
    simp only [decide_eq_false_iff_not]
    tauto
  have hname : adrFileName cfg.CurrentAdr (joinWords words)
      = intRepr cfg.CurrentAdr ++ '-' :: joinHyphen words ++ ".md".data := by
    rw [adrFileName, trimCut_joinWords hne hcut,
      splitSpace_joinWords hne (fun w hw c hc => ((hclean w hw).2 c hc).1)]
  refine ⟨hname, ?_, ?_, by decide⟩
  · intro n hn
    exact natDigitsAux_head_ne_zero (Or.inl le_rfl) hn
  · intro hsucc
    rcases hT : fs.readFile (NewPathConfig home).TemplateFilePath with _ | tmpl
    · simp only [newAdr, hT] at hsucc
      cases hsucc
    rcases hP : parseTmplParts tmpl with _ | parts
    · simp only [newAdr, hT, hP] at hsucc
      cases hsucc
    · simp only [newAdr, hT, hP]
      rw [show (cfg.BaseDir ++ '/' :: (intRepr cfg.CurrentAdr ++ '-' :: joinHyphen words
          ++ ".md".data)) = (cfg.BaseDir ++ '/' :: adrFileName cfg.CurrentAdr
            (joinWords words)) from by rw [hname]]
      rw [FS.readFile_writeFile_self]
      rfl

theorem claim_C5_witness :
    ((newAdr (NewPathConfig "/h".data)
        (FS.empty.writeFile (NewPathConfig "/h".data).TemplateFilePath defaultTemplate)
        ⟨"/h/adr".data, 3⟩ ["My".data, "Doc".data] "d".data).1.readFile
      ("/h/adr".data ++ '/' :: (intRepr 3 ++ '-' :: joinHyphen ["My".data, "Doc".data]
        ++ ".md".data))).isSome ∧
    adrFileName 3 (joinWords ["My".data, "Doc".data]) = "3-My-Doc.md".data :=
  ⟨(claim_C5_generated_filename "/h".data
      (FS.empty.writeFile (NewPathConfig "/h".data).TemplateFilePath defaultTemplate)
      ⟨"/h/adr".data, 3⟩ ["My".data, "Doc".data] "d".data
      (by decide) (by decide)).2.2.1 (by decide),
    by decide⟩

/-! ## Distinctness of generated paths -/

theorem intRepr_natCast (n : Nat) : intRepr (n : Int) = natDigits n := by
  rw [intRepr, if_neg (by omega)]
  congr 1

theorem natDigits_inj {a b : Nat} (h : natDigits a = natDigits b) : a = b := by
  have ha := parseNatChars_natDigits a [] (fun c hc => by cases hc)
  have hb := parseNatChars_natDigits b [] (fun c hc => by cases hc)
  rw [List.append_nil] at ha hb
  rw [h, hb] at ha
  cases ha
  rfl

theorem natDigits_digVal {n : Nat} : ∀ c ∈ natDigits n, (digVal c).isSome := by
  intro c hc
  obtain ⟨d, hd, rfl⟩ := natDigits_digits n c hc
  exact digVal_digitChar_isSome hd

/-- Two all-digit runs followed by a dash determine each other. -/
theorem digitsRun_dash_inj : ∀ {xs ys s t : Str},
    (∀ c ∈ xs, (digVal c).isSome) → (∀ c ∈ ys, (digVal c).isSome) →
    xs ++ '-' :: s = ys ++ '-' :: t → xs = ys ∧ s = t := by
  intro xs
  induction xs with
  | nil =>
    intro ys s t _ hy h
    cases ys with
    | nil =>
      rw [List.nil_append, List.nil_append] at h
      cases h
      exact ⟨rfl, rfl⟩
    | cons d ys2 =>
      rw [List.nil_append, List.cons_append] at h
      have hd : d = '-' := (List.cons.injEq .. ▸ h).1.symm
      have := hy d (List.mem_cons_self ..)
      rw [hd] at this
      cases this
  | cons c xs2 ih =>
    intro ys s t hx hy h
    cases ys with
    | nil =>
      rw [List.nil_append, List.cons_append] at h
      have hc : c = '-' := (List.cons.injEq .. ▸ h).1
      have := hx c (List.mem_cons_self ..)
      rw [hc] at this
      cases this
    | cons d ys2 =>
      rw [List.cons_append, List.cons_append] at h
      have h1 := (List.cons.injEq .. ▸ h).1
      have h2 := (List.cons.injEq .. ▸ h).2
      obtain ⟨hxy, hst⟩ := ih (fun u hu => hx u (List.mem_cons_of_mem _ hu))
        (fun u hu => hy u (List.mem_cons_of_mem _ hu)) h2
      exact ⟨by rw [h1, hxy], hst⟩

/-- The ADR file name determines its number. -/
theorem adrFileName_num_inj {m n : Nat} {t u : Str}
    (h : adrFileName (m : Int) t = adrFileName (n : Int) u) : m = n := by
  rw [adrFileName, adrFileName, intRepr_natCast, intRepr_natCast] at h
  rw [List.append_assoc, List.append_assoc, List.cons_append, List.cons_append] at h
  exact natDigits_inj (digitsRun_dash_inj natDigits_digVal natDigits_digVal h).1

/-- The segment of a path after its last slash. -/
def afterLastSlash (l : Str) : Str := (l.reverse.takeWhile (fun c => decide (c ≠ '/'))).reverse

theorem takeWhile_all_append {p : Char → Bool} {a : Str} {b : Char} {r : Str}
    (ha : ∀ c ∈ a, p c = true) (hb : p b = false) :
    (a ++ b :: r).takeWhile p = a := by
  induction a with
  | nil =>
    rw [List.nil_append]
    exact List.takeWhile_cons_of_neg (by simp [hb])
  | cons x xs ih =>
    rw [List.cons_append, List.takeWhile_cons_of_pos (by simp [ha x (List.mem_cons_self ..)])]
    rw [ih (fun c hc => ha c (List.mem_cons_of_mem _ hc))]

theorem afterLastSlash_append {x name : Str} (h : ∀ c ∈ name, c ≠ '/') :
    afterLastSlash (x ++ '/' :: name) = name := by
  rw [afterLastSlash, List.reverse_append, List.reverse_cons, List.append_assoc]
  rw [show ['/'] ++ x.reverse = '/' :: x.reverse from rfl]
  rw [takeWhile_all_append (fun c hc => by
    simpa using h c (List.mem_reverse.mp hc)) (by decide)]
  exact List.reverse_reverse name

theorem afterLastSlash_templatePath (home : Str) :
    afterLastSlash ((NewPathConfig home).TemplateFilePath) = "template.md".data := by
  rw [NewPathConfig]
  rw [show home ++ "/.adr/template.md".data
    = (home ++ "/.adr".data) ++ '/' :: "template.md".data from by
      rw [List.append_assoc]
      rfl]
  exact afterLastSlash_append (by decide)

/-! ## Character closure of generated names -/

theorem splitSpace_cons_space (r : Str) : splitSpace (' ' :: r) = [] :: splitSpace r := by
  rw [splitSpace]
  simp

theorem splitSpace_cons_nospace {a : Char} {r : Str} {h : Str} {t : List Str}
    (ha : ¬a = ' ') (heq : splitSpace r = h :: t) :
    splitSpace (a :: r) = (a :: h) :: t := by
  rw [splitSpace, if_neg ha, heq]

theorem mem_trimLeftCut {c : Char} : ∀ {s : Str}, c ∈ trimLeftCut s → c ∈ s := by
  intro s
  induction s with
  | nil => intro h; cases h
  | cons a r ih =>
    intro h
    rw [trimLeftCut] at h
    by_cases ha : isCutChar a
    · rw [if_pos ha] at h
      exact List.mem_cons_of_mem _ (ih h)
    · rw [if_neg ha] at h
      exact h

theorem mem_trimCut {c : Char} {s : Str} (h : c ∈ trimCut s) : c ∈ s := by
  rw [trimCut] at h
  rw [List.mem_reverse] at h
  have h2 := mem_trimLeftCut h
  rw [List.mem_reverse] at h2
  exact mem_trimLeftCut h2

theorem mem_splitSpace : ∀ {s : Str} {p : Str}, p ∈ splitSpace s → ∀ {c : Char}, c ∈ p → c ∈ s := by
  intro s
  induction s with
  | nil =>
    intro p hp c hc
    rw [splitSpace] at hp
    rcases List.mem_singleton.mp hp with rfl
    cases hc
  | cons a r ih =>
    intro p hp c hc
    by_cases ha : a = ' '
    · rw [ha, splitSpace_cons_space] at hp
      rcases List.mem_cons.mp hp with rfl | hp2
      · cases hc
      · exact List.mem_cons_of_mem _ (ih hp2 hc)
    · rcases heq : splitSpace r with _ | ⟨h, t⟩
      · exact absurd heq (splitSpace_ne_nil r)
      · rw [splitSpace_cons_nospace ha heq] at hp
        rcases List.mem_cons.mp hp with rfl | hp2
        · rcases List.mem_cons.mp hc with rfl | hc2
          · exact List.mem_cons_self ..
          · have hmem : h ∈ splitSpace r := by
              rw [heq]
              exact List.mem_cons_self ..
            exact List.mem_cons_of_mem _ (ih hmem hc2)
        · have hmem : p ∈ splitSpace r := by
            rw [heq]
            exact List.mem_cons_of_mem _ hp2
          exact List.mem_cons_of_mem _ (ih hmem hc)

theorem mem_joinHyphen {c : Char} : ∀ {parts : List Str},
    c ∈ joinHyphen parts → c = '-' ∨ ∃ p ∈ parts, c ∈ p := by
  intro parts
  induction parts with
  | nil => intro h; cases h
  | cons w ws ih =>
    intro h
    cases ws with
    | nil =>
      rw [joinHyphen] at h
      exact Or.inr ⟨w, List.mem_cons_self .., h⟩
    | cons w2 ws2 =>
      rw [joinHyphen] at h
      · rcases List.mem_append.mp h with h1 | h1
        · exact Or.inr ⟨w, List.mem_cons_self .., h1⟩
        · rcases List.mem_cons.mp h1 with rfl | h2
          · exact Or.inl rfl
          · rcases ih h2 with h3 | ⟨p, hp, hcp⟩
            · exact Or.inl h3
            · exact Or.inr ⟨p, List.mem_cons_of_mem _ hp, hcp⟩
      · exact List.cons_ne_nil _ _

theorem mem_joinWords {c : Char} : ∀ {words : List Str},
    c ∈ joinWords words → c = ' ' ∨ ∃ w ∈ words, c ∈ w := by
  intro words
  induction words with
  | nil => intro h; cases h
  | cons w ws ih =>
    intro h
    cases ws with
    | nil =>
      rw [joinWords] at h
      exact Or.inr ⟨w, List.mem_cons_self .., h⟩
    | cons w2 ws2 =>
      rw [joinWords] at h
      · rcases List.mem_append.mp h with h1 | h1
        · exact Or.inr ⟨w, List.mem_cons_self .., h1⟩
        · rcases List.mem_cons.mp h1 with rfl | h2
          · exact Or.inl rfl
          · rcases ih h2 with h3 | ⟨v, hv, hcv⟩
            · exact Or.inl h3
            · exact Or.inr ⟨v, List.mem_cons_of_mem _ hv, hcv⟩
      · exact List.cons_ne_nil _ _

/-- No character of a generated ADR file name is a slash, provided the
title contains none. -/
theorem adrFileName_no_slash {n : Nat} {title : Str} (h : ∀ c ∈ title, c ≠ '/') :
    ∀ c ∈ adrFileName (n : Int) title, c ≠ '/' := by
  intro c hc
  rw [adrFileName, intRepr_natCast] at hc
  rcases List.mem_append.mp hc with h1 | h1
  · rcases List.mem_append.mp h1 with h2 | h2
    · obtain ⟨d, hd, rfl⟩ := natDigits_digits n c h2
      interval_cases d <;> decide
    · rcases List.mem_cons.mp h2 with rfl | h3
      · decide
      · rcases mem_joinHyphen h3 with rfl | ⟨p, hp, hcp⟩
        · decide
        · exact h c (mem_trimCut (mem_splitSpace hp hcp))
  · rcases List.mem_cons.mp h1 with rfl | h2
    · decide
    rcases List.mem_cons.mp h2 with rfl | h3
    · decide
    rcases List.mem_singleton.mp h3 with rfl
    decide

/-- The generated ADR file name begins with a decimal digit. -/
theorem adrFileName_head_digit (n : Nat) (title : Str) :
    ∃ d, d < 10 ∧ (adrFileName (n : Int) title).head? = some (digitChar d) := by
  obtain ⟨d, hd, hh⟩ := natDigitsAux_head_digit (f := n) (n := n) (Or.inl le_rfl)
  refine ⟨d, hd, ?_⟩
  rw [adrFileName, intRepr_natCast]
  rw [List.head?_append_of_ne_nil _ (fun hcontra =>
    natDigits_ne_nil (List.append_eq_nil.mp hcontra).1)]
  rw [List.head?_append_of_ne_nil _ natDigits_ne_nil]
  exact hh

/-- A generated ADR path (slash-free title) never collides with the
template file path: the segment after the last slash starts with a digit,
while the template file is named `template.md`. -/
theorem adrPath_ne_templateFilePath (home b : Str) {n : Nat} {title : Str}
    (htitle : ∀ c ∈ title, c ≠ '/') :
    b ++ '/' :: adrFileName (n : Int) title ≠ (NewPathConfig home).TemplateFilePath := by
  intro heq
  have h1 : afterLastSlash (b ++ '/' :: adrFileName (n : Int) title)
      = adrFileName (n : Int) title :=
    afterLastSlash_append (adrFileName_no_slash htitle)
  rw [heq, afterLastSlash_templatePath] at h1
  obtain ⟨d, hd, hh⟩ := adrFileName_head_digit n title
  rw [← h1] at hh
  rw [show ("template.md".data).head? = some 't' from rfl] at hh
  injection hh with hh2
  revert hh2
  interval_cases d <;> decide

/-! ## Iterated new invocations (claim C1) -/

/-- Run a sequence of `new` invocations (title-word lists with their
dates), accumulating overall success. -/
def runNews (pc : PathConfig) (fs : FS) : List (List Str × Str) → FS × Bool
  | [] => (fs, true)
  | inp :: rest =>
    let r := NewCmdRun pc fs inp.1 inp.2
    let r2 := runNews pc r.1 rest
    (r2.1, r.2.1 && r2.2)

/-- The expected ADR paths for the given inputs, numbered from `start+1`. -/
def adrPaths (b : Str) : Nat → List (List Str × Str) → List Str
  | _, [] => []
  | start, inp :: rest =>
    (b ++ '/' :: adrFileName ((start + 1 : Nat) : Int) (joinWords inp.1))
      :: adrPaths b (start + 1) rest

/-- Invariant of the iterated-new state: the config file holds the count,
the template file holds the default template, every created ADR path is
present, and nothing else exists. -/
def C1Inv (home b : Str) (k : Nat) (paths : List Str) (fs : FS) : Prop :=
  fs.readFile (NewPathConfig home).ConfigFilePath
    = some (marshalAdrConfig ⟨b, (k : Int)⟩) ∧
  fs.readFile (NewPathConfig home).TemplateFilePath = some defaultTemplate ∧
  (∀ p ∈ paths, (fs.readFile p).isSome) ∧
  (∀ q, (fs.readFile q).isSome → q = (NewPathConfig home).ConfigFilePath
    ∨ q = (NewPathConfig home).TemplateFilePath ∨ q ∈ paths)

theorem mem_adrPaths {b : Str} : ∀ {start : Nat} {l : List (List Str × Str)} {p : Str},
    p ∈ adrPaths b start l → ∃ j t, start < j ∧ j ≤ start + l.length ∧
      p = b ++ '/' :: adrFileName (j : Int) t := by
  intro start l
  induction l generalizing start with
  | nil => intro p hp; cases hp
  | cons inp rest ih =>
    intro p hp
    rw [adrPaths] at hp
    rcases List.mem_cons.mp hp with rfl | hp2
    · exact ⟨start + 1, joinWords inp.1, by omega, by simp, rfl⟩
    · obtain ⟨j, t, hj1, hj2, heq⟩ := ih hp2
      exact ⟨j, t, by omega, by simp at hj2 ⊢; omega, heq⟩

/-- The joined title of slash-free words is slash-free. -/
theorem joinWords_no_slash {args : List Str} (h : ∀ w ∈ args, ∀ c ∈ w, c ≠ '/') :
    ∀ c ∈ joinWords args, c ≠ '/' := by
  intro c hc
  rcases mem_joinWords hc with rfl | ⟨w, hw, hcw⟩
  · decide
  · exact h w hw c hcw

/-- One successful `new` step preserves the invariant, incrementing the
count and adding exactly its own ADR file. -/
theorem C1_step {home b : Str} {k : Nat} {args : List Str} {d : Str} {fs : FS}
    {paths : List Str}
    (hinv : C1Inv home b k paths fs)
    (hargs : ∀ w ∈ args, ∀ c ∈ w, c ≠ '/')
    (hpaths : ∀ p ∈ paths, ∃ j t, j ≤ k ∧ p = b ++ '/' :: adrFileName (j : Int) t) :
    (NewCmdRun (NewPathConfig home) fs args d).2.1 = true ∧
    C1Inv home b (k + 1)
      (paths ++ [b ++ '/' :: adrFileName ((k + 1 : Nat) : Int) (joinWords args)])
      (NewCmdRun (NewPathConfig home) fs args d).1 := by
  obtain ⟨hcfg, htmpl, hpresent, hdom⟩ := hinv
  have hget : getConfig (NewPathConfig home) fs = .ok ⟨b, (k : Int)⟩ := by
    simp only [getConfig, hcfg, parseAdrConfig_marshal]
  have hcfgtmplne : (NewPathConfig home).ConfigFilePath
      ≠ (NewPathConfig home).TemplateFilePath := ne_append_left (by decide)
  have hcast : ((k : Int) + 1) = ((k + 1 : Nat) : Int) := by push_cast; ring
  -- the state after the config update
  have hfs1cfg : (updateConfig (NewPathConfig home) fs ⟨b, (k : Int) + 1⟩).readFile
      (NewPathConfig home).ConfigFilePath
      = some (marshalAdrConfig ⟨b, (k : Int) + 1⟩) := FS.readFile_writeFile_self ..
  have hfs1tmpl : (updateConfig (NewPathConfig home) fs ⟨b, (k : Int) + 1⟩).readFile
      (NewPathConfig home).TemplateFilePath = some defaultTemplate := by
    rw [updateConfig, FS.readFile_writeFile_ne _ _ _ _ hcfgtmplne.symm]
    exact htmpl
  have hnewpath : (b ++ '/' :: adrFileName ((k : Int) + 1) (joinWords args))
      = b ++ '/' :: adrFileName ((k + 1 : Nat) : Int) (joinWords args) := by
    rw [hcast]
  have hexec := execTmpl_defaultParts
    ⟨(k : Int) + 1, joinWords args, d, AdrStatus.PROPOSED⟩
  have hrun : NewCmdRun (NewPathConfig home) fs args d
      = ((updateConfig (NewPathConfig home) fs ⟨b, (k : Int) + 1⟩).writeFile
          (b ++ '/' :: adrFileName ((k : Int) + 1) (joinWords args))
          (execTmpl ⟨(k : Int) + 1, joinWords args, d, AdrStatus.PROPOSED⟩ defaultParts).1,
        true,
        [.configWrite ⟨b, (k : Int) + 1⟩,
         .fileCreate (b ++ '/' :: adrFileName ((k : Int) + 1) (joinWords args))]) := by
    rw [NewCmdRun]
    rw [hget]
    simp only [newAdr, hfs1tmpl, parseTmplParts_defaultTemplate, hexec]
  constructor
  · rw [hrun]
  rw [hrun]
  refine ⟨?_, ?_, ?_, ?_⟩
  · rw [FS.readFile_writeFile_ne _ _ _ _
      (adrPath_ne_configFilePath home b ((k : Int) + 1) (joinWords args)).symm]
    rw [hfs1cfg, hcast]
  · rw [FS.readFile_writeFile_ne _ _ _ _ ?hne]
    · exact hfs1tmpl
    case hne =>
      rw [hnewpath] at *
      exact (adrPath_ne_templateFilePath home b (joinWords_no_slash hargs)).symm
  · intro p hp
    rcases List.mem_append.mp hp with hp1 | hp1
    · obtain ⟨j, t, hjk, heqp⟩ := hpaths p hp1
      have hpcfg : p ≠ (NewPathConfig home).ConfigFilePath := by
        rw [heqp]
        exact adrPath_ne_configFilePath home b (j : Int) t
      have hpnew : p ≠ b ++ '/' :: adrFileName ((k : Int) + 1) (joinWords args) := by
        rw [heqp, hcast]
        intro hcontra
        have h1 := List.append_cancel_left hcontra
        injection h1 with _ h2
        have := adrFileName_num_inj h2
        omega
      rw [FS.readFile_writeFile_ne _ _ _ _ hpnew, updateConfig,
        FS.readFile_writeFile_ne _ _ _ _ hpcfg]
      exact hpresent p hp1
    · rcases List.mem_singleton.mp hp1 with rfl
      rw [← hnewpath, FS.readFile_writeFile_self]
      rfl
  · intro q hq
    rcases FS.readFile_writeFile_isSome _ _ _ _ hq with rfl | hq2
    · right; right
      rw [hnewpath]
      exact List.mem_append.mpr (Or.inr (List.mem_singleton.mpr rfl))
    · rw [updateConfig] at hq2
      rcases FS.readFile_writeFile_isSome _ _ _ _ hq2 with rfl | hq3
      · exact Or.inl rfl
      · rcases hdom q hq3 with h | h | h
        · exact Or.inl h
        · exact Or.inr (Or.inl h)
        · exact Or.inr (Or.inr (List.mem_append.mpr (Or.inl h)))

theorem adrPaths_length (b : Str) : ∀ (start : Nat) (l : List (List Str × Str)),
    (adrPaths b start l).length = l.length := by
  intro start l
  induction l generalizing start with
  | nil => rfl
  | cons inp rest ih =>
    rw [adrPaths, List.length_cons, List.length_cons, ih]

theorem adrPaths_nodup (b : Str) : ∀ (start : Nat) (l : List (List Str × Str)),
    (adrPaths b start l).Nodup := by
  intro start l
  induction l generalizing start with
  | nil => exact List.nodup_nil
  | cons inp rest ih =>
    rw [adrPaths, List.nodup_cons]
    refine ⟨?_, ih (start + 1)⟩
    intro hmem
    obtain ⟨j, t, hj1, _, heq⟩ := mem_adrPaths hmem
    have h1 := List.append_cancel_left heq
    injection h1 with _ h2
    have := adrFileName_num_inj h2
    omega

/-- Running a list of `new` invocations from an invariant state succeeds and
extends the state by exactly the expected ADR files. -/
theorem C1_run {home b : Str} : ∀ (inputs : List (List Str × Str)) (k : Nat) (fs : FS)
    (paths : List Str),
    (∀ inp ∈ inputs, ∀ w ∈ inp.1, ∀ c ∈ w, c ≠ '/') →
    C1Inv home b k paths fs →
    (∀ p ∈ paths, ∃ j t, j ≤ k ∧ p = b ++ '/' :: adrFileName (j : Int) t) →
    (runNews (NewPathConfig home) fs inputs).2 = true ∧
    C1Inv home b (k + inputs.length) (paths ++ adrPaths b k inputs)
      (runNews (NewPathConfig home) fs inputs).1 := by
  intro inputs
  induction inputs with
  | nil =>
    intro k fs paths hw hinv hpaths
    refine ⟨rfl, ?_⟩
    simpa [runNews, adrPaths] using hinv
  | cons inp rest ih =>
    intro k fs paths hw hinv hpaths
    obtain ⟨hok, hinv2⟩ := C1_step hinv (hw inp (List.mem_cons_self ..)) hpaths
    have hpaths2 : ∀ p ∈ paths ++ [b ++ '/' :: adrFileName ((k + 1 : Nat) : Int)
        (joinWords inp.1)], ∃ j t, j ≤ k + 1 ∧ p = b ++ '/' :: adrFileName (j : Int) t := by
      intro p hp
      rcases List.mem_append.mp hp with hp1 | hp1
      · obtain ⟨j, t, hj, heq⟩ := hpaths p hp1
        exact ⟨j, t, by omega, heq⟩
      · rcases List.mem_singleton.mp hp1 with rfl
        exact ⟨k + 1, joinWords inp.1, le_rfl, rfl⟩
    obtain ⟨hok2, hinv3⟩ := ih (k + 1) (NewCmdRun (NewPathConfig home) fs inp.1 inp.2).1
      (paths ++ [b ++ '/' :: adrFileName ((k + 1 : Nat) : Int) (joinWords inp.1)])
      (fun i hi => hw i (List.mem_cons_of_mem _ hi)) hinv2 hpaths2
    constructor
    · simp only [runNews]
      rw [hok, hok2]
      rfl
    · have harith : k + 1 + rest.length = k + (inp :: rest).length := by
        simp
        omega
      rw [← harith]
      have hpatheq : (paths ++ [b ++ '/' :: adrFileName ((k + 1 : Nat) : Int)
          (joinWords inp.1)]) ++ adrPaths b (k + 1) rest
          = paths ++ adrPaths b k (inp :: rest) := by
        rw [adrPaths, List.append_assoc]
        rfl
      rw [← hpatheq]
      exact hinv3

/-- A fresh `init` establishes the invariant at count zero. -/
theorem C1Inv_init (home b : Str) (hb : ¬ b = []) :
    C1Inv home b 0 [] (InitCmdRun (NewPathConfig home) FS.empty b) := by
  have hcfgtmplne : (NewPathConfig home).ConfigFilePath
      ≠ (NewPathConfig home).TemplateFilePath := ne_append_left (by decide)
  refine ⟨?_, ?_, ?_, ?_⟩
  · simp only [InitCmdRun, if_neg hb, initTemplate]
    rw [FS.readFile_writeFile_ne _ _ _ _ hcfgtmplne]
    rw [initConfig_readFile_self]
    norm_num
  · simp only [InitCmdRun, if_neg hb, initTemplate]
    exact FS.readFile_writeFile_self ..
  · intro p hp
    cases hp
  · intro q hq
    simp only [InitCmdRun, if_neg hb, initTemplate] at hq
    rcases FS.readFile_writeFile_isSome _ _ _ _ hq with rfl | hq2
    · exact Or.inr (Or.inl rfl)
    · simp only [initConfig] at hq2
      rcases FS.readFile_writeFile_isSome _ _ _ _ hq2 with rfl | hq3
      · exact Or.inl rfl
      · exfalso
        have hnone : ((initBaseDir FS.empty b).readFile q).isSome := by
          revert hq3
          split
          · exact id
          · rw [FS.readFile_mkdir]
            exact id
        rw [initBaseDir_readFile] at hnone
        simp [FS.readFile, FS.empty] at hnone

/-- C1: from a freshly initialized state, after N successful `new`
invocations the persisted config's current id equals N and exactly the N
distinct ADR files numbered 1..N exist in the base directory (besides the
config and template files, nothing else exists). -/
theorem claim_C1_monotonicity (home b : Str) (inputs : List (List Str × Str))
    (hb : ¬ b = [])
    (hw : ∀ inp ∈ inputs, ∀ w ∈ inp.1, ∀ c ∈ w, c ≠ '/') :
    (runNews (NewPathConfig home) (InitCmdRun (NewPathConfig home) FS.empty b) inputs).2
      = true ∧
    getConfig (NewPathConfig home)
        (runNews (NewPathConfig home) (InitCmdRun (NewPathConfig home) FS.empty b) inputs).1
      = .ok ⟨b, (inputs.length : Int)⟩ ∧
    (adrPaths b 0 inputs).length = inputs.length ∧
    (adrPaths b 0 inputs).Nodup ∧
    (∀ p ∈ adrPaths b 0 inputs,
      ((runNews (NewPathConfig home) (InitCmdRun (NewPathConfig home) FS.empty b)
        inputs).1.readFile p).isSome) ∧
    (∀ q, ((runNews (NewPathConfig home) (InitCmdRun (NewPathConfig home) FS.empty b)
        inputs).1.readFile q).isSome →
      q = (NewPathConfig home).ConfigFilePath ∨ q = (NewPathConfig home).TemplateFilePath
        ∨ q ∈ adrPaths b 0 inputs) := by
  obtain ⟨hok, hinv⟩ := C1_run inputs 0 (InitCmdRun (NewPathConfig home) FS.empty b) []
    hw (C1Inv_init home b hb) (fun p hp => absurd hp (List.not_mem_nil p))
  obtain ⟨hcfg, htmpl, hpres, hdom⟩ := hinv
  rw [Nat.zero_add] at hcfg
  refine ⟨hok, ?_, adrPaths_length b 0 inputs, adrPaths_nodup b 0 inputs, ?_, ?_⟩
  · simp only [getConfig, hcfg, parseAdrConfig_marshal]
  · intro p hp
    exact hpres p (by simpa using hp)
  · intro q hq
    rcases hdom q hq with h | h | h
    · exact Or.inl h
    · exact Or.inr (Or.inl h)
    · exact Or.inr (Or.inr (by simpa using h))

theorem claim_C1_witness :
    getConfig (NewPathConfig "/h".data)
        (runNews (NewPathConfig "/h".data)
          (InitCmdRun (NewPathConfig "/h".data) FS.empty "/h/adr".data)
          [(["My".data, "Doc".data], "1".data), (["Two".data], "2".data)]).1
      = .ok ⟨"/h/adr".data, (2 : Int)⟩ :=
  (claim_C1_monotonicity "/h".data "/h/adr".data
    [(["My".data, "Doc".data], "1".data), (["Two".data], "2".data)]
    (by decide) (by decide)).2.1
